import Mathlib

/-!
A shallow embedding of the transaction-processing core of
`aslonv/transaction_processor` (files `src/engine.rs`, `src/models.rs`)
and proofs about it.

Modelling conventions:
* `rust_decimal::Decimal` is modelled by `Rat` (the spec treats the decimal
  type as an exact decimal with exact add/subtract/compare).
* `HashMap u16 ClientBalance` is modelled by a total function
  `Nat → ClientBalance`; a client that has never been touched maps to the
  zeroed balance, which matches the engine's lazy `or_insert_with(new)`.
* `HashMap u32 TransactionState` is modelled by `Nat → Option TransactionState`.
* `HashSet u32` is modelled by `Finset Nat`.
* CSV parsing and serialization are out of scope: operations arrive as
  already-parsed `OperationRecord`s, exactly the values the engine loop sees.
-/

/-- `models.rs`: the five operation kinds. -/
inductive OperationType where
  | Deposit
  | Withdrawal
  | Dispute
  | Resolve
  | Chargeback
deriving DecidableEq, Repr

/-- `models.rs`: one parsed input record (`type,client,tx,amount`);
`amount` is optional (absent for dispute/resolve/chargeback rows). -/
structure OperationRecord where
  type : OperationType
  client : Nat
  tx : Nat
  amount : Option Rat
deriving DecidableEq, Repr

/-- `models.rs`: the logged state of a past deposit/withdrawal. -/
structure TransactionState where
  client : Nat
  amount : Rat
  is_deposit : Bool
deriving DecidableEq, Repr

/-- `models.rs`: one client's balance triple. -/
structure ClientBalance where
  available : Rat
  held : Rat
  locked : Bool
deriving DecidableEq, Repr

/-- `ClientBalance::new()`: the zeroed balance. -/
def ClientBalance.new : ClientBalance :=
  { available := 0, held := 0, locked := false }

/-- Pointwise update of the client-balance map. -/
def updateBal (f : Nat → ClientBalance) (c : Nat) (b : ClientBalance) :
    Nat → ClientBalance :=
  fun x => if x = c then b else f x

/-- Pointwise update of the transaction log. -/
def updateLog (f : Nat → Option TransactionState) (tx : Nat)
    (v : Option TransactionState) : Nat → Option TransactionState :=
  fun t => if t = tx then v else f t

/-- `engine.rs` `apply_deposit`: guard `amt > 0 && !locked && !contains_key(tx)`,
on success add to `available` and insert a deposit record. -/
def apply_deposit (transaction_log : Nat → Option TransactionState)
    (balance : ClientBalance) (tx : Nat) (client : Nat) (amount : Option Rat) :
    (Nat → Option TransactionState) × ClientBalance :=
  match amount with
  | some amt =>
      if 0 < amt ∧ balance.locked = false ∧ transaction_log tx = none then
        (updateLog transaction_log tx
           (some { client := client, amount := amt, is_deposit := true }),
         { balance with available := balance.available + amt })
      else
        (transaction_log, balance)
  | none => (transaction_log, balance)

/-- `engine.rs` `apply_withdrawal`: guard
`amt > 0 && !locked && available >= amt && !contains_key(tx)`,
on success subtract from `available` and insert a withdrawal record. -/
def apply_withdrawal (balance : ClientBalance) (tx : Nat) (client : Nat)
    (amount : Option Rat) (transaction_log : Nat → Option TransactionState) :
    ClientBalance × (Nat → Option TransactionState) :=
  match amount with
  | some amt =>
      if 0 < amt ∧ balance.locked = false ∧ amt ≤ balance.available ∧
          transaction_log tx = none then
        ({ balance with available := balance.available - amt },
         updateLog transaction_log tx
           (some { client := client, amount := amt, is_deposit := false }))
      else
        (balance, transaction_log)
  | none => (balance, transaction_log)

/-- `engine.rs` `apply_dispute`: on a logged record with matching client,
`is_deposit`, and `tx` not yet tracked, move the amount from `available`
to `held` and insert `tx` into the dispute tracker. -/
def apply_dispute (balance : ClientBalance) (tx : Nat) (client : Nat)
    (transaction_log : Nat → Option TransactionState)
    (dispute_tracker : Finset Nat) : ClientBalance × Finset Nat :=
  match transaction_log tx with
  | some state =>
      if state.client = client ∧ state.is_deposit = true ∧
          tx ∉ dispute_tracker then
        ({ balance with
            available := balance.available - state.amount,
            held := balance.held + state.amount },
         insert tx dispute_tracker)
      else
        (balance, dispute_tracker)
  | none => (balance, dispute_tracker)

/-- `engine.rs` `apply_resolve`: on a logged record with matching client and
`tx` currently tracked, move the amount back from `held` to `available`
and remove `tx` from the dispute tracker. -/
def apply_resolve (balance : ClientBalance) (tx : Nat) (client : Nat)
    (transaction_log : Nat → Option TransactionState)
    (dispute_tracker : Finset Nat) : ClientBalance × Finset Nat :=
  match transaction_log tx with
  | some state =>
      if state.client = client ∧ tx ∈ dispute_tracker then
        ({ balance with
            available := balance.available + state.amount,
            held := balance.held - state.amount },
         dispute_tracker.erase tx)
      else
        (balance, dispute_tracker)
  | none => (balance, dispute_tracker)

/-- `engine.rs` `apply_chargeback`: on a logged record with matching client and
`tx` currently tracked, subtract the amount from `held`, set `locked`,
and remove `tx` from the dispute tracker. -/
def apply_chargeback (balance : ClientBalance) (tx : Nat) (client : Nat)
    (transaction_log : Nat → Option TransactionState)
    (dispute_tracker : Finset Nat) : ClientBalance × Finset Nat :=
  match transaction_log tx with
  | some state =>
      if state.client = client ∧ tx ∈ dispute_tracker then
        ({ balance with
            held := balance.held - state.amount,
            locked := true },
         dispute_tracker.erase tx)
      else
        (balance, dispute_tracker)
  | none => (balance, dispute_tracker)

/-- `engine.rs` `cleanup_transaction`: if `tx` is not in the dispute tracker,
remove its record from the transaction log. -/
def cleanup_transaction (transaction_log : Nat → Option TransactionState)
    (dispute_tracker : Finset Nat) (tx : Nat) :
    Nat → Option TransactionState :=
  if tx ∈ dispute_tracker then transaction_log
  else updateLog transaction_log tx none

/-- The three pieces of state threaded through `process_transactions`. -/
structure EngineState where
  client_balances : Nat → ClientBalance
  transaction_log : Nat → Option TransactionState
  dispute_tracker : Finset Nat

/-- The state `process_transactions` starts from: empty maps, empty set. -/
def initState : EngineState :=
  { client_balances := fun _ => ClientBalance.new
    transaction_log := fun _ => none
    dispute_tracker := ∅ }

/-- One iteration of the `process_transactions` loop: look up (or lazily
create) the client's balance, dispatch on the operation kind, and for
resolve/chargeback run `cleanup_transaction` afterwards. -/
def step (s : EngineState) (r : OperationRecord) : EngineState :=
  let balance := s.client_balances r.client
  match r.type with
  | OperationType.Deposit =>
      let p := apply_deposit s.transaction_log balance r.tx r.client r.amount
      { client_balances := updateBal s.client_balances r.client p.2
        transaction_log := p.1
        dispute_tracker := s.dispute_tracker }
  | OperationType.Withdrawal =>
      let p := apply_withdrawal balance r.tx r.client r.amount s.transaction_log
      { client_balances := updateBal s.client_balances r.client p.1
        transaction_log := p.2
        dispute_tracker := s.dispute_tracker }
  | OperationType.Dispute =>
      let p := apply_dispute balance r.tx r.client s.transaction_log
        s.dispute_tracker
      { client_balances := updateBal s.client_balances r.client p.1
        transaction_log := s.transaction_log
        dispute_tracker := p.2 }
  | OperationType.Resolve =>
      let p := apply_resolve balance r.tx r.client s.transaction_log
        s.dispute_tracker
      { client_balances := updateBal s.client_balances r.client p.1
        transaction_log := cleanup_transaction s.transaction_log p.2 r.tx
        dispute_tracker := p.2 }
  | OperationType.Chargeback =>
      let p := apply_chargeback balance r.tx r.client s.transaction_log
        s.dispute_tracker
      { client_balances := updateBal s.client_balances r.client p.1
        transaction_log := cleanup_transaction s.transaction_log p.2 r.tx
        dispute_tracker := p.2 }

/-- `engine.rs` `process_transactions`: fold the dispatch loop over the
(already parsed) record stream. -/
def process_transactions (ops : List OperationRecord) (s : EngineState) :
    EngineState :=
  ops.foldl step s

/-! ### Spec-side predicates and observers -/

/-- Spec §4.3: the deposit preconditions (amount present and positive,
account not locked, transaction id not yet logged). -/
def depositOk (s : EngineState) (r : OperationRecord) : Prop :=
  match r.amount with
  | some amt =>
      0 < amt ∧ (s.client_balances r.client).locked = false ∧
        s.transaction_log r.tx = none
  | none => False

/-- Spec §4.3: the withdrawal preconditions (deposit's, plus sufficient
available funds). -/
def withdrawalOk (s : EngineState) (r : OperationRecord) : Prop :=
  match r.amount with
  | some amt =>
      0 < amt ∧ (s.client_balances r.client).locked = false ∧
        amt ≤ (s.client_balances r.client).available ∧
        s.transaction_log r.tx = none
  | none => False

/-- Spec §4.4: the dispute preconditions (id logged, owner matches,
deposit-origin, not already disputed). -/
def disputeOk (s : EngineState) (r : OperationRecord) : Prop :=
  match s.transaction_log r.tx with
  | some st =>
      st.client = r.client ∧ st.is_deposit = true ∧
        r.tx ∉ s.dispute_tracker
  | none => False

/-- Spec §4.5/§4.6: the resolve and chargeback preconditions (id logged,
owner matches, currently disputed). -/
def resolveOk (s : EngineState) (r : OperationRecord) : Prop :=
  match s.transaction_log r.tx with
  | some st => st.client = r.client ∧ r.tx ∈ s.dispute_tracker
  | none => False

instance (s : EngineState) (r : OperationRecord) : Decidable (depositOk s r) := by
  unfold depositOk; cases r.amount <;> infer_instance

instance (s : EngineState) (r : OperationRecord) : Decidable (withdrawalOk s r) := by
  unfold withdrawalOk; cases r.amount <;> infer_instance

instance (s : EngineState) (r : OperationRecord) : Decidable (disputeOk s r) := by
  unfold disputeOk; cases s.transaction_log r.tx <;> infer_instance

instance (s : EngineState) (r : OperationRecord) : Decidable (resolveOk s r) := by
  unfold resolveOk; cases s.transaction_log r.tx <;> infer_instance

/-- The per-kind precondition list of spec §4 (for §4.5 and §4.6 the
preconditions coincide). -/
def preconds (s : EngineState) (r : OperationRecord) : Prop :=
  match r.type with
  | OperationType.Deposit => depositOk s r
  | OperationType.Withdrawal => withdrawalOk s r
  | OperationType.Dispute => disputeOk s r
  | OperationType.Resolve => resolveOk s r
  | OperationType.Chargeback => resolveOk s r

instance (s : EngineState) (r : OperationRecord) : Decidable (preconds s r) := by
  unfold preconds; cases r.type <;> infer_instance

/-- The contribution of a single disputed transaction id to a client's
`held`: the recorded amount when the record is owned by that client. -/
def heldContrib (log : Nat → Option TransactionState) (c tx : Nat) : Rat :=
  match log tx with
  | some st => if st.client = c then st.amount else 0
  | none => 0

/-- The sum of recorded amounts over all currently disputed transaction
ids owned by client `c` (spec invariant 2's right-hand side). -/
def heldSum (s : EngineState) (c : Nat) : Rat :=
  Finset.sum s.dispute_tracker (heldContrib s.transaction_log c)

/-! ### The log-membership automaton (for the amended invariant 3)

`logSpecStep` is the spec-level description of how transaction-log
membership evolves: a successful deposit/withdrawal inserts its id; a
resolve or chargeback naming an id removes it exactly when the id is not
in the dispute set once the transition has run; nothing else changes
membership. -/

def logSpecStep (s : EngineState) (r : OperationRecord) (L : Finset Nat) :
    Finset Nat :=
  match r.type with
  | OperationType.Deposit => if depositOk s r then insert r.tx L else L
  | OperationType.Withdrawal => if withdrawalOk s r then insert r.tx L else L
  | OperationType.Dispute => L
  | OperationType.Resolve =>
      if r.tx ∈ (step s r).dispute_tracker then L else L.erase r.tx
  | OperationType.Chargeback =>
      if r.tx ∈ (step s r).dispute_tracker then L else L.erase r.tx

/-- Run the engine and the log-membership automaton side by side. -/
def specRun (ops : List OperationRecord) : EngineState × Finset Nat :=
  ops.foldl (fun p r => (step p.1 r, logSpecStep p.1 r p.2)) (initState, ∅)

/-! ### History ghost state (for stating history-dependent claims)

`recorded` collects the transaction ids that were at some point
successfully recorded by a deposit or withdrawal (observed as: the step
created a log entry for the operation's id); `everDisputed` collects the
ids that at some point entered the dispute set. -/

structure GhostState where
  engine : EngineState
  recorded : Finset Nat
  everDisputed : Finset Nat

def ghostStep (g : GhostState) (r : OperationRecord) : GhostState :=
  let s' := step g.engine r
  { engine := s'
    recorded :=
      if g.engine.transaction_log r.tx = none ∧ s'.transaction_log r.tx ≠ none
      then insert r.tx g.recorded else g.recorded
    everDisputed :=
      if r.tx ∉ g.engine.dispute_tracker ∧ r.tx ∈ s'.dispute_tracker
      then insert r.tx g.everDisputed else g.everDisputed }

def ghostRun (ops : List OperationRecord) : GhostState :=
  ops.foldl ghostStep { engine := initState, recorded := ∅, everDisputed := ∅ }

/-! ### The engine invariant and concrete demonstration inputs -/

/-- The inductive invariant of the engine: all logged amounts are
positive, every disputed id is a logged deposit, and each client's `held`
is the sum of that client's currently disputed amounts. -/
def EngineInv (s : EngineState) : Prop :=
  (∀ tx st, s.transaction_log tx = some st → 0 < st.amount) ∧
  (∀ tx, tx ∈ s.dispute_tracker →
    ∃ st, s.transaction_log tx = some st ∧ st.is_deposit = true) ∧
  (∀ c, (s.client_balances c).held = heldSum s c)

/-- Client 1 deposits 10 under id 1; client 2 then sends a resolve naming
id 1; client 1 then tries to dispute id 1. -/
def erasureOps : List OperationRecord :=
  [ { type := OperationType.Deposit, client := 1, tx := 1, amount := some 10 },
    { type := OperationType.Resolve, client := 2, tx := 1, amount := none },
    { type := OperationType.Dispute, client := 1, tx := 1, amount := none } ]

/-- Client 1 deposits 5 under id 1 and then disputes it. -/
def disputeDemoOps : List OperationRecord :=
  [ { type := OperationType.Deposit, client := 1, tx := 1, amount := some 5 },
    { type := OperationType.Dispute, client := 1, tx := 1, amount := none } ]

/-- A locked account for client 1 holding 2 available, with an undisputed
logged deposit of 5 under id 7. -/
def lockedDisputeState : EngineState :=
  { client_balances := fun c =>
      if c = 1 then { available := 2, held := 0, locked := true }
      else ClientBalance.new
    transaction_log := fun t =>
      if t = 7 then some { client := 1, amount := 5, is_deposit := true }
      else none
    dispute_tracker := ∅ }

/-- A deposit with amount 0 (fails the positivity precondition). -/
def noopRec : OperationRecord :=
  { type := OperationType.Deposit, client := 1, tx := 1, amount := some 0 }

/-- A plain deposit of 5 by client 1 under id 1. -/
def depositDemoRec : OperationRecord :=
  { type := OperationType.Deposit, client := 1, tx := 1, amount := some 5 }

/-- A withdrawal reusing transaction id 1. -/
def wdupRec : OperationRecord :=
  { type := OperationType.Withdrawal, client := 1, tx := 1, amount := some 5 }

/-- A deposit by client 1 under the fresh id 9. -/
def lockedDepositRec : OperationRecord :=
  { type := OperationType.Deposit, client := 1, tx := 9, amount := some 4 }

/-- A dispute by client 1 of transaction id 7. -/
def disputeRec7 : OperationRecord :=
  { type := OperationType.Dispute, client := 1, tx := 7, amount := none }

/-- A chargeback by client 1 of transaction id 1. -/
def chargebackRec : OperationRecord :=
  { type := OperationType.Chargeback, client := 1, tx := 1, amount := none }

/-! ### Basic lemmas about the map updates -/

theorem updateBal_same (f : Nat → ClientBalance) (c : Nat) (b : ClientBalance) :
    updateBal f c b c = b := by
  simp [updateBal]

theorem updateBal_other (f : Nat → ClientBalance) (c : Nat) (b : ClientBalance)
    (x : Nat) (h : x ≠ c) : updateBal f c b x = f x := by
  simp [updateBal, h]

theorem updateBal_self (f : Nat → ClientBalance) (c : Nat) :
    updateBal f c (f c) = f := by
  funext x
  by_cases h : x = c <;> simp [updateBal, h]

theorem updateLog_same (f : Nat → Option TransactionState) (tx : Nat)
    (v : Option TransactionState) : updateLog f tx v tx = v := by
  simp [updateLog]

theorem updateLog_other (f : Nat → Option TransactionState) (tx : Nat)
    (v : Option TransactionState) (t : Nat) (h : t ≠ tx) :
    updateLog f tx v t = f t := by
  simp [updateLog, h]

/-! ### Characterization of one dispatch step, per operation kind -/

theorem step_deposit_of_ok (s : EngineState) (r : OperationRecord) (amt : Rat)
    (h : r.type = OperationType.Deposit) (ha : r.amount = some amt)
    (hok : depositOk s r) :
    step s r =
      { client_balances := updateBal s.client_balances r.client
          { s.client_balances r.client with
              available := (s.client_balances r.client).available + amt }
        transaction_log := updateLog s.transaction_log r.tx
          (some { client := r.client, amount := amt, is_deposit := true })
        dispute_tracker := s.dispute_tracker } := by
  obtain ⟨ty, client, tx, amount⟩ := r
  cases h
  cases ha
  unfold depositOk at hok
  simp only [step, apply_deposit, if_pos hok]

theorem step_deposit_of_not_ok (s : EngineState) (r : OperationRecord)
    (h : r.type = OperationType.Deposit) (hok : ¬ depositOk s r) :
    step s r = s := by
  obtain ⟨ty, client, tx, amount⟩ := r
  cases h
  unfold depositOk at hok
  cases amount with
  | none =>
      simp only [step, apply_deposit]
      rw [updateBal_self]
  | some amt =>
      simp only [step, apply_deposit, if_neg hok]
      rw [updateBal_self]

theorem step_withdrawal_of_ok (s : EngineState) (r : OperationRecord) (amt : Rat)
    (h : r.type = OperationType.Withdrawal) (ha : r.amount = some amt)
    (hok : withdrawalOk s r) :
    step s r =
      { client_balances := updateBal s.client_balances r.client
          { s.client_balances r.client with
              available := (s.client_balances r.client).available - amt }
        transaction_log := updateLog s.transaction_log r.tx
          (some { client := r.client, amount := amt, is_deposit := false })
        dispute_tracker := s.dispute_tracker } := by
  obtain ⟨ty, client, tx, amount⟩ := r
  cases h
  cases ha
  unfold withdrawalOk at hok
  simp only [step, apply_withdrawal, if_pos hok]

theorem step_withdrawal_of_not_ok (s : EngineState) (r : OperationRecord)
    (h : r.type = OperationType.Withdrawal) (hok : ¬ withdrawalOk s r) :
    step s r = s := by
  obtain ⟨ty, client, tx, amount⟩ := r
  cases h
  unfold withdrawalOk at hok
  cases amount with
  | none =>
      simp only [step, apply_withdrawal]
      rw [updateBal_self]
  | some amt =>
      simp only [step, apply_withdrawal, if_neg hok]
      rw [updateBal_self]

theorem step_dispute_of_ok (s : EngineState) (r : OperationRecord)
    (st : TransactionState)
    (h : r.type = OperationType.Dispute)
    (hlog : s.transaction_log r.tx = some st)
    (hok : disputeOk s r) :
    step s r =
      { client_balances := updateBal s.client_balances r.client
          { available := (s.client_balances r.client).available - st.amount
            held := (s.client_balances r.client).held + st.amount
            locked := (s.client_balances r.client).locked }
        transaction_log := s.transaction_log
        dispute_tracker := insert r.tx s.dispute_tracker } := by
  obtain ⟨ty, client, tx, amount⟩ := r
  cases h
  unfold disputeOk at hok
  simp only [step, apply_dispute, hlog] at hok ⊢
  simp only [if_pos hok]

theorem step_dispute_of_not_ok (s : EngineState) (r : OperationRecord)
    (h : r.type = OperationType.Dispute) (hok : ¬ disputeOk s r) :
    step s r = s := by
  obtain ⟨ty, client, tx, amount⟩ := r
  cases h
  unfold disputeOk at hok
  cases hlog : s.transaction_log tx with
  | none =>
      simp only [step, apply_dispute, hlog]
      rw [updateBal_self]
  | some st =>
      simp only [hlog] at hok
      simp only [step, apply_dispute, hlog, if_neg hok]
      rw [updateBal_self]

theorem step_resolve_of_ok (s : EngineState) (r : OperationRecord)
    (st : TransactionState)
    (h : r.type = OperationType.Resolve)
    (hlog : s.transaction_log r.tx = some st)
    (hok : resolveOk s r) :
    step s r =
      { client_balances := updateBal s.client_balances r.client
          { available := (s.client_balances r.client).available + st.amount
            held := (s.client_balances r.client).held - st.amount
            locked := (s.client_balances r.client).locked }
        transaction_log := updateLog s.transaction_log r.tx none
        dispute_tracker := s.dispute_tracker.erase r.tx } := by
  obtain ⟨ty, client, tx, amount⟩ := r
  cases h
  unfold resolveOk at hok
  simp only [hlog] at hok
  simp only [step, apply_resolve, hlog, if_pos hok, cleanup_transaction,
    Finset.not_mem_erase, if_neg (Finset.not_mem_erase tx s.dispute_tracker),
    if_false]

theorem step_resolve_of_not_ok (s : EngineState) (r : OperationRecord)
    (h : r.type = OperationType.Resolve) (hok : ¬ resolveOk s r) :
    step s r =
      { client_balances := s.client_balances
        transaction_log :=
          cleanup_transaction s.transaction_log s.dispute_tracker r.tx
        dispute_tracker := s.dispute_tracker } := by
  obtain ⟨ty, client, tx, amount⟩ := r
  cases h
  unfold resolveOk at hok
  cases hlog : s.transaction_log tx with
  | none =>
      simp only [step, apply_resolve, hlog]
      rw [updateBal_self]
  | some st =>
      simp only [hlog] at hok
      simp only [step, apply_resolve, hlog, if_neg hok]
      rw [updateBal_self]

theorem step_chargeback_of_ok (s : EngineState) (r : OperationRecord)
    (st : TransactionState)
    (h : r.type = OperationType.Chargeback)
    (hlog : s.transaction_log r.tx = some st)
    (hok : resolveOk s r) :
    step s r =
      { client_balances := updateBal s.client_balances r.client
          { available := (s.client_balances r.client).available
            held := (s.client_balances r.client).held - st.amount
            locked := true }
        transaction_log := updateLog s.transaction_log r.tx none
        dispute_tracker := s.dispute_tracker.erase r.tx } := by
  obtain ⟨ty, client, tx, amount⟩ := r
  cases h
  unfold resolveOk at hok
  simp only [hlog] at hok
  simp only [step, apply_chargeback, hlog, if_pos hok, cleanup_transaction,
    Finset.not_mem_erase, if_neg (Finset.not_mem_erase tx s.dispute_tracker),
    if_false]

theorem step_chargeback_of_not_ok (s : EngineState) (r : OperationRecord)
    (h : r.type = OperationType.Chargeback) (hok : ¬ resolveOk s r) :
    step s r =
      { client_balances := s.client_balances
        transaction_log :=
          cleanup_transaction s.transaction_log s.dispute_tracker r.tx
        dispute_tracker := s.dispute_tracker } := by
  obtain ⟨ty, client, tx, amount⟩ := r
  cases h
  unfold resolveOk at hok
  cases hlog : s.transaction_log tx with
  | none =>
      simp only [step, apply_chargeback, hlog]
      rw [updateBal_self]
  | some st =>
      simp only [hlog] at hok
      simp only [step, apply_chargeback, hlog, if_neg hok]
      rw [updateBal_self]

/-! ### Preservation of the engine invariant -/

theorem heldSum_congr (tracker : Finset Nat)
    (log log' : Nat → Option TransactionState) (c : Nat)
    (h : ∀ t ∈ tracker, log' t = log t) :
    Finset.sum tracker (heldContrib log' c) =
      Finset.sum tracker (heldContrib log c) := by
  refine Finset.sum_congr rfl (fun t ht => ?_)
  unfold heldContrib
  rw [h t ht]

theorem inv_init : EngineInv initState := by
  refine ⟨fun tx st hst => by simp [initState] at hst,
    fun tx htx => by simp [initState] at htx,
    fun c => ?_⟩
  simp [initState, heldSum, ClientBalance.new]

theorem inv_step_deposit (s : EngineState) (r : OperationRecord)
    (hty : r.type = OperationType.Deposit) (h : EngineInv s) :
    EngineInv (step s r) := by
  obtain ⟨hpos, hdl, hheld⟩ := h
  by_cases hok : depositOk s r
  · cases ha : r.amount with
    | none => unfold depositOk at hok; rw [ha] at hok; exact hok.elim
    | some amt =>
      have hok' := hok
      unfold depositOk at hok'
      rw [ha] at hok'
      obtain ⟨hamt, -, hfresh⟩ := hok'
      have hne : ∀ t ∈ s.dispute_tracker, t ≠ r.tx := by
        intro t ht he
        obtain ⟨st, hst, -⟩ := hdl t ht
        rw [he, hfresh] at hst
        cases hst
      rw [step_deposit_of_ok s r amt hty ha hok]
      unfold EngineInv heldSum
      dsimp only
      refine ⟨?_, ?_, ?_⟩
      · intro t st hst
        by_cases ht : t = r.tx
        · subst ht
          rw [updateLog_same] at hst
          cases hst
          exact hamt
        · rw [updateLog_other _ _ _ _ ht] at hst
          exact hpos t st hst
      · intro t ht
        obtain ⟨st, hst, hdep⟩ := hdl t ht
        refine ⟨st, ?_, hdep⟩
        rw [updateLog_other _ _ _ _ (hne t ht)]
        exact hst
      · intro c
        rw [heldSum_congr s.dispute_tracker s.transaction_log _ c
          (fun t ht => updateLog_other _ _ _ _ (hne t ht))]
        by_cases hc : c = r.client
        · subst hc
          rw [updateBal_same]
          exact hheld r.client
        · rw [updateBal_other _ _ _ _ hc]
          exact hheld c
  · rw [step_deposit_of_not_ok s r hty hok]
    exact ⟨hpos, hdl, hheld⟩

theorem inv_step_withdrawal (s : EngineState) (r : OperationRecord)
    (hty : r.type = OperationType.Withdrawal) (h : EngineInv s) :
    EngineInv (step s r) := by
  obtain ⟨hpos, hdl, hheld⟩ := h
  by_cases hok : withdrawalOk s r
  · cases ha : r.amount with
    | none => unfold withdrawalOk at hok; rw [ha] at hok; exact hok.elim
    | some amt =>
      have hok' := hok
      unfold withdrawalOk at hok'
      rw [ha] at hok'
      obtain ⟨hamt, -, -, hfresh⟩ := hok'
      have hne : ∀ t ∈ s.dispute_tracker, t ≠ r.tx := by
        intro t ht he
        obtain ⟨st, hst, -⟩ := hdl t ht
        rw [he, hfresh] at hst
        cases hst
      rw [step_withdrawal_of_ok s r amt hty ha hok]
      unfold EngineInv heldSum
      dsimp only
      refine ⟨?_, ?_, ?_⟩
      · intro t st hst
        by_cases ht : t = r.tx
        · subst ht
          rw [updateLog_same] at hst
          cases hst
          exact hamt
        · rw [updateLog_other _ _ _ _ ht] at hst
          exact hpos t st hst
      · intro t ht
        obtain ⟨st, hst, hdep⟩ := hdl t ht
        refine ⟨st, ?_, hdep⟩
        rw [updateLog_other _ _ _ _ (hne t ht)]
        exact hst
      · intro c
        rw [heldSum_congr s.dispute_tracker s.transaction_log _ c
          (fun t ht => updateLog_other _ _ _ _ (hne t ht))]
        by_cases hc : c = r.client
        · subst hc
          rw [updateBal_same]
          exact hheld r.client
        · rw [updateBal_other _ _ _ _ hc]
          exact hheld c
  · rw [step_withdrawal_of_not_ok s r hty hok]
    exact ⟨hpos, hdl, hheld⟩

theorem inv_step_dispute (s : EngineState) (r : OperationRecord)
    (hty : r.type = OperationType.Dispute) (h : EngineInv s) :
    EngineInv (step s r) := by
  obtain ⟨hpos, hdl, hheld⟩ := h
  by_cases hok : disputeOk s r
  · cases hlog : s.transaction_log r.tx with
    | none => unfold disputeOk at hok; rw [hlog] at hok; exact hok.elim
    | some st =>
      have hok' := hok
      unfold disputeOk at hok'
      rw [hlog] at hok'
      obtain ⟨hcl, hdep, hnot⟩ := hok'
      rw [step_dispute_of_ok s r st hty hlog hok]
      unfold EngineInv heldSum
      dsimp only
      refine ⟨hpos, ?_, ?_⟩
      · intro t ht
        rcases Finset.mem_insert.mp ht with he | ht'
        · exact ⟨st, by rw [he]; exact hlog, hdep⟩
        · exact hdl t ht'
      · intro c
        rw [Finset.sum_insert hnot]
        by_cases hc : c = r.client
        · subst hc
          rw [updateBal_same]
          dsimp only
          have hcontrib : heldContrib s.transaction_log r.client r.tx =
              st.amount := by
            unfold heldContrib
            rw [hlog]
            dsimp only
            rw [if_pos hcl]
          have hh : (s.client_balances r.client).held =
              Finset.sum s.dispute_tracker
                (heldContrib s.transaction_log r.client) := hheld r.client
          rw [hcontrib, hh]
          exact add_comm _ _
        · rw [updateBal_other _ _ _ _ hc]
          have hcontrib : heldContrib s.transaction_log c r.tx = 0 := by
            unfold heldContrib
            rw [hlog]
            dsimp only
            rw [if_neg (by rw [hcl]; exact fun he => hc he.symm)]
          have hh : (s.client_balances c).held =
              Finset.sum s.dispute_tracker
                (heldContrib s.transaction_log c) := hheld c
          rw [hcontrib, zero_add]
          exact hh
  · rw [step_dispute_of_not_ok s r hty hok]
    exact ⟨hpos, hdl, hheld⟩

theorem inv_step_resolve (s : EngineState) (r : OperationRecord)
    (hty : r.type = OperationType.Resolve) (h : EngineInv s) :
    EngineInv (step s r) := by
  obtain ⟨hpos, hdl, hheld⟩ := h
  by_cases hok : resolveOk s r
  · cases hlog : s.transaction_log r.tx with
    | none => unfold resolveOk at hok; rw [hlog] at hok; exact hok.elim
    | some st =>
      have hok' := hok
      unfold resolveOk at hok'
      rw [hlog] at hok'
      obtain ⟨hcl, hmem⟩ := hok'
      rw [step_resolve_of_ok s r st hty hlog hok]
      unfold EngineInv heldSum
      dsimp only
      refine ⟨?_, ?_, ?_⟩
      · intro t st' hst
        by_cases ht : t = r.tx
        · subst ht
          rw [updateLog_same] at hst
          cases hst
        · rw [updateLog_other _ _ _ _ ht] at hst
          exact hpos t st' hst
      · intro t ht
        obtain ⟨st', hst, hdep⟩ := hdl t (Finset.mem_of_mem_erase ht)
        refine ⟨st', ?_, hdep⟩
        rw [updateLog_other _ _ _ _ (Finset.ne_of_mem_erase ht)]
        exact hst
      · intro c
        rw [heldSum_congr (s.dispute_tracker.erase r.tx) s.transaction_log _ c
          (fun t ht => updateLog_other _ _ _ _ (Finset.ne_of_mem_erase ht))]
        have hesum := Finset.sum_erase_add s.dispute_tracker
          (heldContrib s.transaction_log c) hmem
        by_cases hc : c = r.client
        · subst hc
          rw [updateBal_same]
          dsimp only
          have hcontrib : heldContrib s.transaction_log r.client r.tx =
              st.amount := by
            unfold heldContrib
            rw [hlog]
            dsimp only
            rw [if_pos hcl]
          rw [hcontrib] at hesum
          have hh : (s.client_balances r.client).held =
              Finset.sum s.dispute_tracker
                (heldContrib s.transaction_log r.client) := hheld r.client
          linarith [hesum, hh]
        · rw [updateBal_other _ _ _ _ hc]
          have hcontrib : heldContrib s.transaction_log c r.tx = 0 := by
            unfold heldContrib
            rw [hlog]
            dsimp only
            rw [if_neg (by rw [hcl]; exact fun he => hc he.symm)]
          rw [hcontrib, add_zero] at hesum
          have hh : (s.client_balances c).held =
              Finset.sum s.dispute_tracker
                (heldContrib s.transaction_log c) := hheld c
          rw [hh]
          exact hesum.symm
  · rw [step_resolve_of_not_ok s r hty hok]
    unfold EngineInv heldSum cleanup_transaction
    dsimp only
    by_cases hmem : r.tx ∈ s.dispute_tracker
    · rw [if_pos hmem]
      exact ⟨hpos, hdl, hheld⟩
    · rw [if_neg hmem]
      have hne : ∀ t ∈ s.dispute_tracker, t ≠ r.tx :=
        fun t ht he => hmem (he ▸ ht)
      refine ⟨?_, ?_, ?_⟩
      · intro t st hst
        by_cases ht : t = r.tx
        · subst ht
          rw [updateLog_same] at hst
          cases hst
        · rw [updateLog_other _ _ _ _ ht] at hst
          exact hpos t st hst
      · intro t ht
        obtain ⟨st, hst, hdep⟩ := hdl t ht
        refine ⟨st, ?_, hdep⟩
        rw [updateLog_other _ _ _ _ (hne t ht)]
        exact hst
      · intro c
        rw [heldSum_congr s.dispute_tracker s.transaction_log _ c
          (fun t ht => updateLog_other _ _ _ _ (hne t ht))]
        exact hheld c

theorem inv_step_chargeback (s : EngineState) (r : OperationRecord)
    (hty : r.type = OperationType.Chargeback) (h : EngineInv s) :
    EngineInv (step s r) := by
  obtain ⟨hpos, hdl, hheld⟩ := h
  by_cases hok : resolveOk s r
  · cases hlog : s.transaction_log r.tx with
    | none => unfold resolveOk at hok; rw [hlog] at hok; exact hok.elim
    | some st =>
      have hok' := hok
      unfold resolveOk at hok'
      rw [hlog] at hok'
      obtain ⟨hcl, hmem⟩ := hok'
      rw [step_chargeback_of_ok s r st hty hlog hok]
      unfold EngineInv heldSum
      dsimp only
      refine ⟨?_, ?_, ?_⟩
      · intro t st' hst
        by_cases ht : t = r.tx
        · subst ht
          rw [updateLog_same] at hst
          cases hst
        · rw [updateLog_other _ _ _ _ ht] at hst
          exact hpos t st' hst
      · intro t ht
        obtain ⟨st', hst, hdep⟩ := hdl t (Finset.mem_of_mem_erase ht)
        refine ⟨st', ?_, hdep⟩
        rw [updateLog_other _ _ _ _ (Finset.ne_of_mem_erase ht)]
        exact hst
      · intro c
        rw [heldSum_congr (s.dispute_tracker.erase r.tx) s.transaction_log _ c
          (fun t ht => updateLog_other _ _ _ _ (Finset.ne_of_mem_erase ht))]
        have hesum := Finset.sum_erase_add s.dispute_tracker
          (heldContrib s.transaction_log c) hmem
        by_cases hc : c = r.client
        · subst hc
          rw [updateBal_same]
          dsimp only
          have hcontrib : heldContrib s.transaction_log r.client r.tx =
              st.amount := by
            unfold heldContrib
            rw [hlog]
            dsimp only
            rw [if_pos hcl]
          rw [hcontrib] at hesum
          have hh : (s.client_balances r.client).held =
              Finset.sum s.dispute_tracker
                (heldContrib s.transaction_log r.client) := hheld r.client
          linarith [hesum, hh]
        · rw [updateBal_other _ _ _ _ hc]
          have hcontrib : heldContrib s.transaction_log c r.tx = 0 := by
            unfold heldContrib
            rw [hlog]
            dsimp only
            rw [if_neg (by rw [hcl]; exact fun he => hc he.symm)]
          rw [hcontrib, add_zero] at hesum
          have hh : (s.client_balances c).held =
              Finset.sum s.dispute_tracker
                (heldContrib s.transaction_log c) := hheld c
          rw [hh]
          exact hesum.symm
  · rw [step_chargeback_of_not_ok s r hty hok]
    unfold EngineInv heldSum cleanup_transaction
    dsimp only
    by_cases hmem : r.tx ∈ s.dispute_tracker
    · rw [if_pos hmem]
      exact ⟨hpos, hdl, hheld⟩
    · rw [if_neg hmem]
      have hne : ∀ t ∈ s.dispute_tracker, t ≠ r.tx :=
        fun t ht he => hmem (he ▸ ht)
      refine ⟨?_, ?_, ?_⟩
      · intro t st hst
        by_cases ht : t = r.tx
        · subst ht
          rw [updateLog_same] at hst
          cases hst
        · rw [updateLog_other _ _ _ _ ht] at hst
          exact hpos t st hst
      · intro t ht
        obtain ⟨st, hst, hdep⟩ := hdl t ht
        refine ⟨st, ?_, hdep⟩
        rw [updateLog_other _ _ _ _ (hne t ht)]
        exact hst
      · intro c
        rw [heldSum_congr s.dispute_tracker s.transaction_log _ c
          (fun t ht => updateLog_other _ _ _ _ (hne t ht))]
        exact hheld c

theorem inv_step (s : EngineState) (r : OperationRecord) (h : EngineInv s) :
    EngineInv (step s r) := by
  cases hty : r.type with
  | Deposit => exact inv_step_deposit s r hty h
  | Withdrawal => exact inv_step_withdrawal s r hty h
  | Dispute => exact inv_step_dispute s r hty h
  | Resolve => exact inv_step_resolve s r hty h
  | Chargeback => exact inv_step_chargeback s r hty h

theorem inv_process (ops : List OperationRecord) (s : EngineState)
    (h : EngineInv s) : EngineInv (process_transactions ops s) := by
  induction ops generalizing s with
  | nil => exact h
  | cons r rest ih => exact ih (step s r) (inv_step s r h)

/-! ### The log-membership automaton tracks the engine's transaction log -/

theorem logSpecStep_agrees (s : EngineState) (r : OperationRecord)
    (L : Finset Nat)
    (h : ∀ t, t ∈ L ↔ s.transaction_log t ≠ none) :
    ∀ t, t ∈ logSpecStep s r L ↔ (step s r).transaction_log t ≠ none := by
  intro t
  cases hty : r.type with
  | Deposit =>
    simp only [logSpecStep, hty]
    by_cases hok : depositOk s r
    · cases ha : r.amount with
      | none => unfold depositOk at hok; rw [ha] at hok; exact hok.elim
      | some amt =>
        rw [if_pos hok, step_deposit_of_ok s r amt hty ha hok]
        dsimp only
        by_cases ht : t = r.tx
        · subst ht
          rw [updateLog_same]
          simp
        · rw [updateLog_other _ _ _ _ ht, Finset.mem_insert]
          simp only [ht, false_or]
          exact h t
    · rw [if_neg hok, step_deposit_of_not_ok s r hty hok]
      exact h t
  | Withdrawal =>
    simp only [logSpecStep, hty]
    by_cases hok : withdrawalOk s r
    · cases ha : r.amount with
      | none => unfold withdrawalOk at hok; rw [ha] at hok; exact hok.elim
      | some amt =>
        rw [if_pos hok, step_withdrawal_of_ok s r amt hty ha hok]
        dsimp only
        by_cases ht : t = r.tx
        · subst ht
          rw [updateLog_same]
          simp
        · rw [updateLog_other _ _ _ _ ht, Finset.mem_insert]
          simp only [ht, false_or]
          exact h t
    · rw [if_neg hok, step_withdrawal_of_not_ok s r hty hok]
      exact h t
  | Dispute =>
    simp only [logSpecStep, hty]
    by_cases hok : disputeOk s r
    · cases hlog : s.transaction_log r.tx with
      | none => unfold disputeOk at hok; rw [hlog] at hok; exact hok.elim
      | some st =>
        rw [step_dispute_of_ok s r st hty hlog hok]
        exact h t
    · rw [step_dispute_of_not_ok s r hty hok]
      exact h t
  | Resolve =>
    simp only [logSpecStep, hty]
    by_cases hok : resolveOk s r
    · cases hlog : s.transaction_log r.tx with
      | none => unfold resolveOk at hok; rw [hlog] at hok; exact hok.elim
      | some st =>
        rw [step_resolve_of_ok s r st hty hlog hok]
        dsimp only
        rw [if_neg (Finset.not_mem_erase r.tx s.dispute_tracker)]
        by_cases ht : t = r.tx
        · subst ht
          rw [updateLog_same]
          simp
        · rw [updateLog_other _ _ _ _ ht, Finset.mem_erase]
          simp only [ne_eq, ht, not_false_eq_true, true_and]
          exact h t
    · rw [step_resolve_of_not_ok s r hty hok]
      dsimp only
      unfold cleanup_transaction
      by_cases hmem : r.tx ∈ s.dispute_tracker
      · rw [if_pos hmem, if_pos hmem]
        exact h t
      · rw [if_neg hmem, if_neg hmem]
        by_cases ht : t = r.tx
        · subst ht
          rw [updateLog_same]
          simp
        · rw [updateLog_other _ _ _ _ ht, Finset.mem_erase]
          simp only [ne_eq, ht, not_false_eq_true, true_and]
          exact h t
  | Chargeback =>
    simp only [logSpecStep, hty]
    by_cases hok : resolveOk s r
    · cases hlog : s.transaction_log r.tx with
      | none => unfold resolveOk at hok; rw [hlog] at hok; exact hok.elim
      | some st =>
        rw [step_chargeback_of_ok s r st hty hlog hok]
        dsimp only
        rw [if_neg (Finset.not_mem_erase r.tx s.dispute_tracker)]
        by_cases ht : t = r.tx
        · subst ht
          rw [updateLog_same]
          simp
        · rw [updateLog_other _ _ _ _ ht, Finset.mem_erase]
          simp only [ne_eq, ht, not_false_eq_true, true_and]
          exact h t
    · rw [step_chargeback_of_not_ok s r hty hok]
      dsimp only
      unfold cleanup_transaction
      by_cases hmem : r.tx ∈ s.dispute_tracker
      · rw [if_pos hmem, if_pos hmem]
        exact h t
      · rw [if_neg hmem, if_neg hmem]
        by_cases ht : t = r.tx
        · subst ht
          rw [updateLog_same]
          simp
        · rw [updateLog_other _ _ _ _ ht, Finset.mem_erase]
          simp only [ne_eq, ht, not_false_eq_true, true_and]
          exact h t

theorem specFold_agrees (ops : List OperationRecord) (s : EngineState)
    (L : Finset Nat) (h : ∀ t, t ∈ L ↔ s.transaction_log t ≠ none) :
    (ops.foldl (fun p r => (step p.1 r, logSpecStep p.1 r p.2)) (s, L)).1 =
      process_transactions ops s ∧
    (∀ t, t ∈ (ops.foldl (fun p r => (step p.1 r, logSpecStep p.1 r p.2))
        (s, L)).2 ↔
      (ops.foldl (fun p r => (step p.1 r, logSpecStep p.1 r p.2))
        (s, L)).1.transaction_log t ≠ none) := by
  induction ops generalizing s L with
  | nil => exact ⟨rfl, h⟩
  | cons r rest ih =>
    simpa only [List.foldl_cons] using
      ih (step s r) (logSpecStep s r L) (logSpecStep_agrees s r L h)

/-! ### Lock monotonicity and further helper lemmas -/

theorem depositOk_fresh (s : EngineState) (r : OperationRecord)
    (h : depositOk s r) : s.transaction_log r.tx = none := by
  unfold depositOk at h
  cases ha : r.amount with
  | none => rw [ha] at h; exact h.elim
  | some amt => rw [ha] at h; exact h.2.2

theorem withdrawalOk_fresh (s : EngineState) (r : OperationRecord)
    (h : withdrawalOk s r) : s.transaction_log r.tx = none := by
  unfold withdrawalOk at h
  cases ha : r.amount with
  | none => rw [ha] at h; exact h.elim
  | some amt => rw [ha] at h; exact h.2.2.2

theorem depositOk_unlocked (s : EngineState) (r : OperationRecord)
    (h : depositOk s r) : (s.client_balances r.client).locked = false := by
  unfold depositOk at h
  cases ha : r.amount with
  | none => rw [ha] at h; exact h.elim
  | some amt => rw [ha] at h; exact h.2.1

theorem withdrawalOk_unlocked (s : EngineState) (r : OperationRecord)
    (h : withdrawalOk s r) : (s.client_balances r.client).locked = false := by
  unfold withdrawalOk at h
  cases ha : r.amount with
  | none => rw [ha] at h; exact h.elim
  | some amt => rw [ha] at h; exact h.2.1

theorem step_locked_mono (s : EngineState) (r : OperationRecord) (c : Nat)
    (h : (s.client_balances c).locked = true) :
    ((step s r).client_balances c).locked = true := by
  cases hty : r.type with
  | Deposit =>
    by_cases hok : depositOk s r
    · cases ha : r.amount with
      | none => unfold depositOk at hok; rw [ha] at hok; exact hok.elim
      | some amt =>
        rw [step_deposit_of_ok s r amt hty ha hok]
        dsimp only
        by_cases hc : c = r.client
        · subst hc
          rw [updateBal_same]
          exact h
        · rw [updateBal_other _ _ _ _ hc]
          exact h
    · rw [step_deposit_of_not_ok s r hty hok]
      exact h
  | Withdrawal =>
    by_cases hok : withdrawalOk s r
    · cases ha : r.amount with
      | none => unfold withdrawalOk at hok; rw [ha] at hok; exact hok.elim
      | some amt =>
        rw [step_withdrawal_of_ok s r amt hty ha hok]
        dsimp only
        by_cases hc : c = r.client
        · subst hc
          rw [updateBal_same]
          exact h
        · rw [updateBal_other _ _ _ _ hc]
          exact h
    · rw [step_withdrawal_of_not_ok s r hty hok]
      exact h
  | Dispute =>
    by_cases hok : disputeOk s r
    · cases hlog : s.transaction_log r.tx with
      | none => unfold disputeOk at hok; rw [hlog] at hok; exact hok.elim
      | some st =>
        rw [step_dispute_of_ok s r st hty hlog hok]
        dsimp only
        by_cases hc : c = r.client
        · subst hc
          rw [updateBal_same]
          exact h
        · rw [updateBal_other _ _ _ _ hc]
          exact h
    · rw [step_dispute_of_not_ok s r hty hok]
      exact h
  | Resolve =>
    by_cases hok : resolveOk s r
    · cases hlog : s.transaction_log r.tx with
      | none => unfold resolveOk at hok; rw [hlog] at hok; exact hok.elim
      | some st =>
        rw [step_resolve_of_ok s r st hty hlog hok]
        dsimp only
        by_cases hc : c = r.client
        · subst hc
          rw [updateBal_same]
          exact h
        · rw [updateBal_other _ _ _ _ hc]
          exact h
    · rw [step_resolve_of_not_ok s r hty hok]
      exact h
  | Chargeback =>
    by_cases hok : resolveOk s r
    · cases hlog : s.transaction_log r.tx with
      | none => unfold resolveOk at hok; rw [hlog] at hok; exact hok.elim
      | some st =>
        rw [step_chargeback_of_ok s r st hty hlog hok]
        dsimp only
        by_cases hc : c = r.client
        · subst hc
          rw [updateBal_same]
        · rw [updateBal_other _ _ _ _ hc]
          exact h
    · rw [step_chargeback_of_not_ok s r hty hok]
      exact h

theorem process_locked_mono (ops : List OperationRecord) (s : EngineState)
    (c : Nat) (h : (s.client_balances c).locked = true) :
    ((process_transactions ops s).client_balances c).locked = true := by
  induction ops generalizing s with
  | nil => exact h
  | cons r rest ih => exact ih (step s r) (step_locked_mono s r c h)

/-! ### Claim theorems -/

/-- C1 (amended): after processing any finite stream, a transaction id is a
key of the transaction log if and only if the log-membership automaton
`logSpecStep` contains it — the automaton inserts an id exactly when a
deposit or withdrawal successfully records it, leaves membership untouched
on deposits, withdrawals and disputes that do not record, and, on every
resolve or chargeback naming an id (successful or not, by any client),
removes the id exactly when it is not in the dispute set after that
operation's transition. In particular a logged, never-disputed id stays in
the log only until the first resolve or chargeback naming it. -/
theorem log_membership_amended (ops : List OperationRecord) (tx : Nat) :
    tx ∈ (specRun ops).2 ↔
      (process_transactions ops initState).transaction_log tx ≠ none := by
  have h := specFold_agrees ops initState ∅
    (fun t => by simp [initState])
  exact ((h.2 tx).trans (by rw [h.1]))

/-- C1, counterexample to the claim as stated: after
`[deposit(client 1, tx 1, 10); resolve(client 2, tx 1)]`, transaction id 1
was successfully recorded by a deposit and has never been disputed, yet it
is not a key of the transaction log: the failed cross-client resolve's
cleanup erased it. -/
theorem log_membership_counterexample :
    (ghostRun (List.take 2 erasureOps)).engine.transaction_log 1 = none ∧
    1 ∈ (ghostRun (List.take 2 erasureOps)).recorded ∧
    1 ∉ (ghostRun (List.take 2 erasureOps)).everDisputed ∧
    ¬ ((ghostRun (List.take 2 erasureOps)).engine.transaction_log 1 ≠ none ↔
        (1 ∈ (ghostRun (List.take 2 erasureOps)).recorded ∧
          (1 ∉ (ghostRun (List.take 2 erasureOps)).everDisputed ∨
            1 ∈ (ghostRun (List.take 2 erasureOps)).engine.dispute_tracker))) := by
  decide

/-- C2 (amended): an operation whose preconditions fail leaves every
account balance and the dispute set unchanged and surfaces no error, and it
leaves the transaction log unchanged as well — except that a failed resolve
or chargeback still erases the named transaction id's log record whenever
that id is not in the dispute set. -/
theorem silent_noop_amended (s : EngineState) (r : OperationRecord)
    (h : ¬ preconds s r) :
    (step s r).client_balances = s.client_balances ∧
    (step s r).dispute_tracker = s.dispute_tracker ∧
    ∀ t, (step s r).transaction_log t =
      if (r.type = OperationType.Resolve ∨ r.type = OperationType.Chargeback) ∧
          t = r.tx ∧ r.tx ∉ s.dispute_tracker
      then none else s.transaction_log t := by
  cases hty : r.type with
  | Deposit =>
    unfold preconds at h
    simp only [hty] at h
    rw [step_deposit_of_not_ok s r hty h]
    refine ⟨rfl, rfl, fun t => ?_⟩
    rw [if_neg]
    rintro ⟨he | he, -, -⟩ <;> cases he
  | Withdrawal =>
    unfold preconds at h
    simp only [hty] at h
    rw [step_withdrawal_of_not_ok s r hty h]
    refine ⟨rfl, rfl, fun t => ?_⟩
    rw [if_neg]
    rintro ⟨he | he, -, -⟩ <;> cases he
  | Dispute =>
    unfold preconds at h
    simp only [hty] at h
    rw [step_dispute_of_not_ok s r hty h]
    refine ⟨rfl, rfl, fun t => ?_⟩
    rw [if_neg]
    rintro ⟨he | he, -, -⟩ <;> cases he
  | Resolve =>
    unfold preconds at h
    simp only [hty] at h
    rw [step_resolve_of_not_ok s r hty h]
    refine ⟨rfl, rfl, fun t => ?_⟩
    dsimp only
    unfold cleanup_transaction
    by_cases hmem : r.tx ∈ s.dispute_tracker
    · rw [if_pos hmem, if_neg]
      rintro ⟨-, -, hnot⟩
      exact hnot hmem
    · rw [if_neg hmem]
      by_cases ht : t = r.tx
      · subst ht
        rw [updateLog_same, if_pos ⟨Or.inl rfl, rfl, hmem⟩]
      · rw [updateLog_other _ _ _ _ ht, if_neg]
        rintro ⟨-, he, -⟩
        exact ht he
  | Chargeback =>
    unfold preconds at h
    simp only [hty] at h
    rw [step_chargeback_of_not_ok s r hty h]
    refine ⟨rfl, rfl, fun t => ?_⟩
    dsimp only
    unfold cleanup_transaction
    by_cases hmem : r.tx ∈ s.dispute_tracker
    · rw [if_pos hmem, if_neg]
      rintro ⟨-, -, hnot⟩
      exact hnot hmem
    · rw [if_neg hmem]
      by_cases ht : t = r.tx
      · subst ht
        rw [updateLog_same, if_pos ⟨Or.inr rfl, rfl, hmem⟩]
      · rw [updateLog_other _ _ _ _ ht, if_neg]
        rintro ⟨-, he, -⟩
        exact ht he

/-- C2 witness: a zero-amount deposit fails its preconditions and changes
no account, no dispute-set entry and no log entry. -/
theorem silent_noop_amended_witness :
    ¬ preconds initState noopRec ∧
    (step initState noopRec).client_balances = initState.client_balances ∧
    (step initState noopRec).dispute_tracker = initState.dispute_tracker ∧
    (step initState noopRec).transaction_log 1 =
      initState.transaction_log 1 := by
  have hpre : ¬ preconds initState noopRec := by decide
  obtain ⟨h1, h2, h3⟩ := silent_noop_amended initState noopRec hpre
  refine ⟨hpre, h1, h2, ?_⟩
  rw [h3 1, if_neg]
  rintro ⟨he | he, -, -⟩ <;> cases he

/-- C2, counterexample to the claim as stated: a resolve naming a logged
but undisputed transaction id fails its preconditions (the dispute-set
membership gate), yet it does change state — the id's record is removed
from the transaction log. -/
theorem silent_noop_counterexample :
    ¬ preconds (process_transactions (List.take 1 erasureOps) initState)
        { type := OperationType.Resolve, client := 1, tx := 1,
          amount := none } ∧
    (step (process_transactions (List.take 1 erasureOps) initState)
        { type := OperationType.Resolve, client := 1, tx := 1,
          amount := none }).transaction_log 1 ≠
      (process_transactions (List.take 1 erasureOps)
        initState).transaction_log 1 := by
  refine ⟨by decide, ?_⟩
  intro he
  rw [show (step (process_transactions (List.take 1 erasureOps) initState)
      { type := OperationType.Resolve, client := 1, tx := 1,
        amount := none }).transaction_log 1 = none by decide] at he
  rw [show (process_transactions (List.take 1 erasureOps)
      initState).transaction_log 1 =
      some { client := 1, amount := 10, is_deposit := true } by decide] at he
  cases he

/-- C3: after every finite stream, each account's `held` equals the sum of
the recorded amounts of the transaction ids currently in the dispute set
whose recorded owner is that account's client. -/
theorem held_matches_open_disputes (ops : List OperationRecord) (c : Nat) :
    ((process_transactions ops initState).client_balances c).held =
      heldSum (process_transactions ops initState) c :=
  (inv_process ops initState inv_init).2.2 c

/-- C4: a dispute succeeds exactly when the id is logged, the record's
owner is the operation's client, the record is deposit-origin, and the id
is not already disputed; on success it subtracts the recorded amount from
`available` (unconditionally), adds it to `held`, inserts the id into the
dispute set, and preserves `locked` (which it never checks, so it can
succeed on a locked account); otherwise it is a no-op. -/
theorem dispute_characterization (s : EngineState) (r : OperationRecord)
    (hty : r.type = OperationType.Dispute) :
    (∀ st, s.transaction_log r.tx = some st → disputeOk s r →
      step s r =
        { client_balances := updateBal s.client_balances r.client
            { available := (s.client_balances r.client).available - st.amount
              held := (s.client_balances r.client).held + st.amount
              locked := (s.client_balances r.client).locked }
          transaction_log := s.transaction_log
          dispute_tracker := insert r.tx s.dispute_tracker }) ∧
    (¬ disputeOk s r → step s r = s) :=
  ⟨fun st hlog hok => step_dispute_of_ok s r st hty hlog hok,
   fun hok => step_dispute_of_not_ok s r hty hok⟩

/-- C4 witness: a dispute on a locked account succeeds and drives
`available` below zero (2 - 5 = -3). -/
theorem dispute_characterization_witness :
    (lockedDisputeState.client_balances 1).locked = true ∧
    ((step lockedDisputeState disputeRec7).client_balances 1).available = -3 ∧
    ((step lockedDisputeState disputeRec7).client_balances 1).held = 5 ∧
    ((step lockedDisputeState disputeRec7).client_balances 1).locked = true ∧
    7 ∈ (step lockedDisputeState disputeRec7).dispute_tracker := by
  have h := (dispute_characterization lockedDisputeState disputeRec7 rfl).1
    { client := 1, amount := 5, is_deposit := true } rfl (by decide)
  rw [h]
  refine ⟨rfl, ?_, ?_, ?_, ?_⟩
  · norm_num [updateBal, lockedDisputeState, disputeRec7]
  · norm_num [updateBal, lockedDisputeState, disputeRec7]
  · norm_num [updateBal, lockedDisputeState, disputeRec7]
  · norm_num [disputeRec7, Finset.mem_insert]

/-- C5: a deposit or withdrawal succeeds exactly when the amount is
present and positive, the account is unlocked, (for withdrawal) available
funds suffice, and the id is not yet logged; on success the amount is
added to (resp. subtracted from) `available` and a record with the
matching `is_deposit` flag is logged; otherwise it is a no-op, and in
particular an id already logged by either kind is rejected for both. -/
theorem deposit_withdrawal_characterization (s : EngineState)
    (r : OperationRecord) :
    (r.type = OperationType.Deposit →
      (∀ amt, r.amount = some amt → depositOk s r →
        step s r =
          { client_balances := updateBal s.client_balances r.client
              { s.client_balances r.client with
                  available := (s.client_balances r.client).available + amt }
            transaction_log := updateLog s.transaction_log r.tx
              (some { client := r.client, amount := amt, is_deposit := true })
            dispute_tracker := s.dispute_tracker }) ∧
      (¬ depositOk s r → step s r = s)) ∧
    (r.type = OperationType.Withdrawal →
      (∀ amt, r.amount = some amt → withdrawalOk s r →
        step s r =
          { client_balances := updateBal s.client_balances r.client
              { s.client_balances r.client with
                  available := (s.client_balances r.client).available - amt }
            transaction_log := updateLog s.transaction_log r.tx
              (some { client := r.client, amount := amt, is_deposit := false })
            dispute_tracker := s.dispute_tracker }) ∧
      (¬ withdrawalOk s r → step s r = s)) ∧
    ((r.type = OperationType.Deposit ∨ r.type = OperationType.Withdrawal) →
      ∀ st, s.transaction_log r.tx = some st → step s r = s) := by
  refine ⟨fun hty => ⟨fun amt ha hok =>
      step_deposit_of_ok s r amt hty ha hok,
    fun hok => step_deposit_of_not_ok s r hty hok⟩,
    fun hty => ⟨fun amt ha hok =>
      step_withdrawal_of_ok s r amt hty ha hok,
    fun hok => step_withdrawal_of_not_ok s r hty hok⟩,
    ?_⟩
  rintro (hty | hty) st hst
  · refine step_deposit_of_not_ok s r hty (fun hok => ?_)
    rw [depositOk_fresh s r hok] at hst
    cases hst
  · refine step_withdrawal_of_not_ok s r hty (fun hok => ?_)
    rw [withdrawalOk_fresh s r hok] at hst
    cases hst

/-- C5 witness: a deposit of 5 succeeds and logs a deposit record; a
withdrawal reusing the same transaction id is then rejected outright. -/
theorem deposit_withdrawal_characterization_witness :
    ((step initState depositDemoRec).client_balances 1).available = 5 ∧
    (step initState depositDemoRec).transaction_log 1 =
      some { client := 1, amount := 5, is_deposit := true } ∧
    step (step initState depositDemoRec) wdupRec =
      step initState depositDemoRec := by
  have hs := ((deposit_withdrawal_characterization initState
    depositDemoRec).1 rfl).1 5 rfl (by decide)
  have hlog : (step initState depositDemoRec).transaction_log 1 =
      some { client := 1, amount := 5, is_deposit := true } := by
    rw [hs]
    norm_num [updateLog, depositDemoRec]
  refine ⟨?_, hlog, ?_⟩
  · rw [hs]
    norm_num [updateBal, initState, ClientBalance.new, depositDemoRec]
  · exact (deposit_withdrawal_characterization (step initState depositDemoRec)
      wdupRec).2.2 (Or.inr rfl) { client := 1, amount := 5, is_deposit := true }
      hlog

/-- C6: once an account is locked (as a chargeback leaves it), it stays
locked after any continuation of the stream, and any later deposit or
withdrawal for that client leaves its `available` and `held` unchanged. -/
theorem locked_is_terminal (s : EngineState) (c : Nat)
    (h : (s.client_balances c).locked = true) :
    (∀ ops, ((process_transactions ops s).client_balances c).locked = true) ∧
    (∀ ops r,
      (r.type = OperationType.Deposit ∨ r.type = OperationType.Withdrawal) →
      r.client = c →
      ((step (process_transactions ops s) r).client_balances c).available =
        ((process_transactions ops s).client_balances c).available ∧
      ((step (process_transactions ops s) r).client_balances c).held =
        ((process_transactions ops s).client_balances c).held) := by
  refine ⟨fun ops => process_locked_mono ops s c h, ?_⟩
  rintro ops r (hty | hty) hcl
  · have h' : ((process_transactions ops s).client_balances c).locked = true :=
      process_locked_mono ops s c h
    have hnok : ¬ depositOk (process_transactions ops s) r := fun hok => by
      have hu := depositOk_unlocked _ r hok
      rw [hcl, h'] at hu
      cases hu
    rw [step_deposit_of_not_ok _ r hty hnok]
    exact ⟨rfl, rfl⟩
  · have h' : ((process_transactions ops s).client_balances c).locked = true :=
      process_locked_mono ops s c h
    have hnok : ¬ withdrawalOk (process_transactions ops s) r := fun hok => by
      have hu := withdrawalOk_unlocked _ r hok
      rw [hcl, h'] at hu
      cases hu
    rw [step_withdrawal_of_not_ok _ r hty hnok]
    exact ⟨rfl, rfl⟩

/-- C6 witness: on a locked account, the lock survives a further deposit
and that deposit leaves `available` unchanged. -/
theorem locked_is_terminal_witness :
    ((process_transactions [lockedDepositRec]
        lockedDisputeState).client_balances 1).locked = true ∧
    ((step (process_transactions [] lockedDisputeState)
        lockedDepositRec).client_balances 1).available =
      ((process_transactions [] lockedDisputeState).client_balances
        1).available := by
  have h := locked_is_terminal lockedDisputeState 1 rfl
  exact ⟨h.1 [lockedDepositRec], (h.2 [] lockedDepositRec (Or.inl rfl) rfl).1⟩

/-- C7: a successful chargeback subtracts the recorded amount from `held`,
sets `locked`, removes the id from the dispute set and then from the
transaction log, leaves that account's `available` unchanged, and leaves
every other client's account unchanged. -/
theorem chargeback_effects (s : EngineState) (r : OperationRecord)
    (st : TransactionState)
    (hty : r.type = OperationType.Chargeback)
    (hlog : s.transaction_log r.tx = some st)
    (hcl : st.client = r.client)
    (hmem : r.tx ∈ s.dispute_tracker) :
    ((step s r).client_balances r.client).held =
      (s.client_balances r.client).held - st.amount ∧
    ((step s r).client_balances r.client).locked = true ∧
    ((step s r).client_balances r.client).available =
      (s.client_balances r.client).available ∧
    (step s r).dispute_tracker = s.dispute_tracker.erase r.tx ∧
    (step s r).transaction_log r.tx = none ∧
    ∀ c, c ≠ r.client → (step s r).client_balances c =
      s.client_balances c := by
  have hok : resolveOk s r := by
    unfold resolveOk
    rw [hlog]
    exact ⟨hcl, hmem⟩
  rw [step_chargeback_of_ok s r st hty hlog hok]
  dsimp only
  refine ⟨?_, ?_, ?_, rfl, ?_, ?_⟩
  · rw [updateBal_same]
  · rw [updateBal_same]
  · rw [updateBal_same]
  · rw [updateLog_same]
  · intro c hc
    rw [updateBal_other _ _ _ _ hc]

/-- C7 witness: charging back the disputed deposit of 5 locks client 1,
removes the record, moves `held` down by 5, leaves `available` as it was,
and leaves client 2 untouched. -/
theorem chargeback_effects_witness :
    ((step (process_transactions disputeDemoOps initState)
        chargebackRec).client_balances 1).locked = true ∧
    ((step (process_transactions disputeDemoOps initState)
        chargebackRec).client_balances 1).held =
      ((process_transactions disputeDemoOps initState).client_balances
        1).held - 5 ∧
    ((step (process_transactions disputeDemoOps initState)
        chargebackRec).client_balances 1).available =
      ((process_transactions disputeDemoOps initState).client_balances
        1).available ∧
    (step (process_transactions disputeDemoOps initState)
        chargebackRec).transaction_log 1 = none ∧
    (step (process_transactions disputeDemoOps initState)
        chargebackRec).client_balances 2 =
      (process_transactions disputeDemoOps initState).client_balances 2 := by
  have h := chargeback_effects (process_transactions disputeDemoOps initState)
    chargebackRec { client := 1, amount := 5, is_deposit := true } rfl
    (by decide) rfl (by decide)
  exact ⟨h.2.1, h.1, h.2.2.1, h.2.2.2.2.1, h.2.2.2.2.2 2 (by decide)⟩

/-- C8: after processing any finite stream, every account's `held` is
nonnegative. -/
theorem held_nonneg (ops : List OperationRecord) (c : Nat) :
    0 ≤ ((process_transactions ops initState).client_balances c).held := by
  obtain ⟨hpos, -, hheld⟩ := inv_process ops initState inv_init
  rw [hheld c]
  unfold heldSum
  refine Finset.sum_nonneg (fun t ht => ?_)
  unfold heldContrib
  cases hst : (process_transactions ops initState).transaction_log t with
  | none => exact le_refl 0
  | some st =>
    dsimp only
    by_cases hcl : st.client = c
    · rw [if_pos hcl]
      exact le_of_lt (hpos t st hst)
    · rw [if_neg hcl]

/-- C9: on the stream `[deposit(1,1,10); resolve(2,1); dispute(1,1)]`, the
failed cross-client resolve erases client 1's undisputed deposit record
while changing no balances, and client 1's own later dispute of that id is
then silently rejected. -/
theorem cross_client_record_erasure :
    (process_transactions (List.take 1 erasureOps)
        initState).transaction_log 1 =
      some { client := 1, amount := 10, is_deposit := true } ∧
    (process_transactions (List.take 1 erasureOps)
        initState).dispute_tracker = ∅ ∧
    (process_transactions (List.take 2 erasureOps)
        initState).transaction_log 1 = none ∧
    (process_transactions (List.take 2 erasureOps)
        initState).client_balances =
      (process_transactions (List.take 1 erasureOps)
        initState).client_balances ∧
    process_transactions erasureOps initState =
      process_transactions (List.take 2 erasureOps) initState := by
  refine ⟨by decide, by decide, by decide, ?_, ?_⟩
  · show (step (process_transactions (List.take 1 erasureOps) initState)
        { type := OperationType.Resolve, client := 2, tx := 1,
          amount := none }).client_balances =
      (process_transactions (List.take 1 erasureOps)
        initState).client_balances
    rw [step_resolve_of_not_ok _ _ rfl (by decide)]
  · show step (process_transactions (List.take 2 erasureOps) initState)
        { type := OperationType.Dispute, client := 1, tx := 1,
          amount := none } =
      process_transactions (List.take 2 erasureOps) initState
    exact step_dispute_of_not_ok _ _ rfl (by decide)

/-- C10: after any finite stream, every transaction id in the dispute set
is a key of the transaction log and its record is deposit-origin. -/
theorem disputed_ids_are_logged_deposits (ops : List OperationRecord)
    (tx : Nat)
    (h : tx ∈ (process_transactions ops initState).dispute_tracker) :
    ∃ st, (process_transactions ops initState).transaction_log tx =
        some st ∧ st.is_deposit = true :=
  (inv_process ops initState inv_init).2.1 tx h

/-- C10 witness: after a deposit and its dispute, id 1 is disputed and its
log record is a deposit. -/
theorem disputed_ids_are_logged_deposits_witness :
    1 ∈ (process_transactions disputeDemoOps initState).dispute_tracker ∧
    ∃ st, (process_transactions disputeDemoOps initState).transaction_log 1 =
        some st ∧ st.is_deposit = true :=
  ⟨by decide, disputed_ids_are_logged_deposits disputeDemoOps 1 (by decide)⟩
